import Mathlib

/-!
Shallow embedding of the Algo_trade backtesting and risk-management engine.

The embedding covers the execution loop of Backtester.run (main.py, lines
216-291): the per-bar trade logic, the equity curve, the win-rate and
max-drawdown metrics, and the RiskManager module (risk_management.py):
position sizing, drawdown ratchet, entry gating and the risk-management
post-process over a trade ledger.

Numeric conventions: Python floats are modelled as rationals; the arithmetic
performed by the code on the inputs used in the theorems is exact, so no
rounding is modelled.  Python expressions that can raise (division by zero,
indexing an empty list) are modelled with Option, with none as the raised
exception, wherever a claim depends on the error behaviour.
-/

namespace AlgoTrade

/-- Python int() applied to a float: truncation toward zero. -/
def pyTrunc (q : ℚ) : ℤ := if 0 ≤ q then ⌊q⌋ else -⌊-q⌋

/-- Trade side, the trade dict field named type in the Python code. -/
inductive Side where
  | buy
  | sell
deriving DecidableEq, Repr

/-- One record of the trade ledger built by Backtester.run.  profit is only
present on SELL trades, hence an Option. -/
structure Trade where
  side : Side
  price : ℚ
  shares : ℤ
  value : ℚ
  profit : Option ℚ
  date : ℕ
deriving DecidableEq, Repr

/-- One point of the equity curve. -/
structure EquityPoint where
  date : ℕ
  value : ℚ
deriving DecidableEq, Repr

/-- The mutable state of Backtester.run inside its loop. -/
structure BTState where
  cash : ℚ
  position : ℤ
  trades : List Trade
  equity : List EquityPoint
deriving DecidableEq, Repr

/-- One input bar as seen by the loop: the closing price and the value of the
Position column (the change marker), with none standing for pandas NaN, plus
the bar index standing in for the timestamp. -/
structure Bar where
  close : ℚ
  change : Option ℚ
  date : ℕ
deriving DecidableEq, Repr

/-- The state after the resets at the top of Backtester.run. -/
def initState (initialCapital : ℚ) : BTState :=
  ⟨initialCapital, 0, [], []⟩

/-- The trade part of one loop iteration (main.py lines 222-250), reached only
when the change marker is defined.  Returns none when the BUY branch divides
by a zero closing price, which raises ZeroDivisionError in Python. -/
def tradePhase (s : BTState) (b : Bar) (ch : ℚ) : Option BTState :=
  if ch = 2 ∧ s.position = 0 then
    if b.close = 0 then none
    else
      let shares := pyTrunc (s.cash / b.close)
      if 0 < shares then
        some { s with
          cash := s.cash - (shares : ℚ) * b.close,
          position := shares,
          trades := s.trades ++
            [⟨Side.buy, b.close, shares, (shares : ℚ) * b.close, none, b.date⟩] }
      else some s
  else if ch = -2 ∧ 0 < s.position then
    let value := (s.position : ℚ) * b.close
    let prevValue := (s.trades.getLast?).elim 0 Trade.value
    some { s with
      cash := s.cash + value,
      position := 0,
      trades := s.trades ++
        [⟨Side.sell, b.close, s.position, value, some (value - prevValue), b.date⟩] }
  else some s

/-- One full loop iteration (main.py lines 216-257): bars whose change marker
is NaN are skipped entirely by the continue statement, before any equity
point is appended; otherwise the trade phase runs and then one equity point
is appended. -/
def processBar (s : BTState) (b : Bar) : Option BTState :=
  match b.change with
  | none => some s
  | some ch =>
    (tradePhase s b ch).map fun t =>
      { t with equity := t.equity ++ [⟨b.date, t.cash + (t.position : ℚ) * b.close⟩] }

/-- The loop of Backtester.run over the bar sequence. -/
def runLoop (s : BTState) : List Bar → Option BTState
  | [] => some s
  | b :: bs => (processBar s b).bind (fun s₁ => runLoop s₁ bs)

/-- Win-rate metric (main.py lines 263-264).  The guard in the source is on
the whole ledger being nonempty, not on the SELL sublist, so a nonempty
ledger with no SELL trades divides by zero: modelled as none. -/
def winRateMetric (trades : List Trade) : Option ℚ :=
  if trades = [] then some 0
  else
    let sells := trades.filter fun t => t.side = Side.sell
    if sells.length = 0 then none
    else
      let winning := trades.filter fun t => t.side = Side.sell ∧ 0 < t.profit.getD 0
      some ((winning.length : ℚ) / (sells.length : ℚ) * 100)

/-- One iteration of the max-drawdown scan (main.py lines 270-275), carried
state is the pair of the running peak and the running maximum drawdown. -/
def ddStep (pm : ℚ × ℚ) (v : ℚ) : ℚ × ℚ :=
  let peak := if v > pm.1 then v else pm.1
  let dd := (peak - v) / peak * 100
  (peak, if dd > pm.2 then dd else pm.2)

/-- Max-drawdown metric (main.py lines 266-275).  The peak is initialised to
equity_values[0], which raises IndexError on an empty curve: modelled as
none.  The division by the peak is total here; the theorems about its value
assume positive equity values, under which Python and this model agree. -/
def maxDrawdownMetric (vals : List ℚ) : Option ℚ :=
  match vals with
  | [] => none
  | v0 :: _ => some (vals.foldl ddStep (v0, 0)).2

/-- The result structure returned by Backtester.run.  The Sharpe ratio is
omitted: it is a real-valued quantity (it multiplies by the square root of
252), its computation is guarded so it never raises, and no claim concerns
its value. -/
structure RunResult where
  initialCapital : ℚ
  finalValue : ℚ
  totalReturn : ℚ
  totalTrades : ℕ
  winRate : ℚ
  maxDrawdown : ℚ
  trades : List Trade
  equity : List EquityPoint
deriving DecidableEq, Repr

/-- Backtester.run after strategy application (main.py lines 216-291): the
loop, then final value (indexing the last close raises on an empty series),
total return, win rate and max drawdown, in the evaluation order of the
source.  The division by initialCapital in the total return is total here;
Python raises when initialCapital is zero, a case no claim touches. -/
def runBacktest (initialCapital : ℚ) (bars : List Bar) : Option RunResult := do
  let s ← runLoop (initState initialCapital) bars
  let lastBar ← bars.getLast?
  let finalValue := s.cash + (s.position : ℚ) * lastBar.close
  let totalReturn := (finalValue - initialCapital) / initialCapital * 100
  let wr ← winRateMetric s.trades
  let md ← maxDrawdownMetric (s.equity.map EquityPoint.value)
  some ⟨initialCapital, finalValue, totalReturn, s.trades.length, wr, md,
    s.trades, s.equity⟩

/-- Tail of pandas Series.diff over a signal column. -/
def diffsFrom : ℤ → List ℤ → List (Option ℚ)
  | _, [] => []
  | prev, s :: rest => some ((s - prev : ℤ) : ℚ) :: diffsFrom s rest

/-- pandas Series.diff: the first element is NaN, every later element is the
difference with its predecessor.  This is how the Position change markers
are derived from the Signal column in every strategy. -/
def diffMarkers : List ℤ → List (Option ℚ)
  | [] => []
  | s :: rest => none :: diffsFrom s rest

/-- Build the bar list seen by the loop from closes and the signal column,
dates being the bar indices. -/
def barsOf (closes : List ℚ) (signal : List ℤ) : List Bar :=
  (closes.zip (diffMarkers signal)).enum.map fun p => ⟨p.2.1, p.2.2, p.1⟩

/-- RiskManager construction parameters (risk_management.py lines 10-26),
with the constructor defaults. -/
structure RMConfig where
  initialCapital : ℚ := 100000
  maxPositionSize : ℚ := 1/5
  stopLossPct : ℚ := 1/20
  takeProfitPct : ℚ := 1/10
  maxDrawdownPct : ℚ := 1/5
deriving DecidableEq, Repr

/-- The configuration with every constructor default. -/
def defaultRM : RMConfig := {}

/-- The fields of the dict returned by update_drawdown that depend on the
call; the echoed limit and peak are recoverable from the config and the
returned peak and are not duplicated here. -/
structure DrawdownInfo where
  currentDrawdown : ℚ
  haltTrading : Bool
deriving DecidableEq, Repr

/-- RiskManager.update_drawdown (risk_management.py lines 74-96) with the
mutable peak_value made explicit: returns the updated peak together with the
drawdown info.  The peak update happens before the division in the source,
so the peak component is always defined; the info is none when the updated
peak is 0, where Python raises ZeroDivisionError. -/
def update_drawdown (cfg : RMConfig) (peak currentValue : ℚ) : ℚ × Option DrawdownInfo :=
  let peak₁ := if currentValue > peak then currentValue else peak
  if peak₁ = 0 then (peak₁, none)
  else
    let dd := (peak₁ - currentValue) / peak₁
    (peak₁, some ⟨dd, decide (dd ≥ cfg.maxDrawdownPct)⟩)

/-- RiskManager.check_stop_loss (risk_management.py lines 56-63).  The
division is total here; Python raises when entryPrice is 0, a case never
reached by the callers modelled in this file. -/
def check_stop_loss (cfg : RMConfig) (entryPrice currentPrice : ℚ) : Bool :=
  decide ((entryPrice - currentPrice) / entryPrice ≥ cfg.stopLossPct)

/-- RiskManager.check_take_profit (risk_management.py lines 65-72), same
convention on the division as check_stop_loss. -/
def check_take_profit (cfg : RMConfig) (entryPrice currentPrice : ℚ) : Bool :=
  decide ((currentPrice - entryPrice) / entryPrice ≥ cfg.takeProfitPct)

/-- RiskManager.calculate_position_size (risk_management.py lines 28-54).
Returns none when currentPrice is 0, where Python raises ZeroDivisionError.
The Python truthiness guard on volatility (volatility and volatility > 0) is
equivalent to volatility being present and positive. -/
def calculate_position_size (cfg : RMConfig) (currentCapital currentPrice : ℚ)
    (volatility : Option ℚ) : Option ℤ :=
  if currentPrice = 0 then none
  else
    let maxInvestment := currentCapital * cfg.maxPositionSize
    let shares := pyTrunc (maxInvestment / currentPrice)
    let shares₁ :=
      match volatility with
      | some v => if 0 < v then pyTrunc ((shares : ℚ) * min (1/4) (1/v)) else shares
      | none => shares
    some (max 0 shares₁)

/-- RiskManager.calculate_risk_reward_ratio (risk_management.py lines
98-111). -/
def calculate_risk_reward_ratio (entryPrice targetPrice stopLossPrice : ℚ) : ℚ :=
  let potentialProfit := targetPrice - entryPrice
  let potentialLoss := entryPrice - stopLossPrice
  if potentialLoss ≤ 0 then 0 else potentialProfit / potentialLoss

/-- The stop-loss price computed at the top of should_enter_trade. -/
def stopLossPriceOf (cfg : RMConfig) (entryPrice : ℚ) : ℚ :=
  entryPrice * (1 - cfg.stopLossPct)

/-- The decision dict returned by should_enter_trade, one constructor per
return statement, carrying the numeric payload of each dict. -/
inductive Decision where
  | haltedMaxDrawdown (drawdown : ℚ)
  | poorRiskReward (riskReward : ℚ)
  | insufficientCapital (required : ℚ)
  | enter (positionSize : ℤ) (stopLossPrice riskReward maxLoss : ℚ)
deriving DecidableEq, Repr

/-- RiskManager.should_enter_trade (risk_management.py lines 113-168) with
the peak_value state threaded explicitly: returns the updated peak and the
decision, or none when an internal division raises. -/
def should_enter_trade (cfg : RMConfig) (peak : ℚ)
    (currentCapital entryPrice targetPrice : ℚ) : Option (ℚ × Decision) :=
  let slp := stopLossPriceOf cfg entryPrice
  let ud := update_drawdown cfg peak currentCapital
  match ud.2 with
  | none => none
  | some info =>
    if info.haltTrading then some (ud.1, Decision.haltedMaxDrawdown info.currentDrawdown)
    else
      let rr := calculate_risk_reward_ratio entryPrice targetPrice slp
      if rr < 2 then some (ud.1, Decision.poorRiskReward rr)
      else
        match calculate_position_size cfg currentCapital entryPrice none with
        | none => none
        | some ps =>
          if ps = 0 then some (ud.1, Decision.insufficientCapital entryPrice)
          else some (ud.1, Decision.enter ps slp rr ((ps : ℚ) * entryPrice * cfg.stopLossPct))

/-- Exit reason tag set on SELL trades by apply_risk_management. -/
inductive ExitReason where
  | stop_loss
  | take_profit
  | signal
deriving DecidableEq, Repr

/-- A trade dict as handled by apply_risk_management: the core fields written
by the backtester plus the optional available_capital input and the
annotation fields that apply_risk_management may set. -/
structure RMTrade where
  side : Side
  price : ℚ
  shares : ℤ
  value : ℚ
  profit : Option ℚ
  date : ℕ
  availableCapital : Option ℚ
  positionSize : Option ℤ
  stopLossPrice : Option ℚ
  riskReward : Option ℚ
  exitReason : Option ExitReason
deriving DecidableEq, Repr

/-- The fields of a trade that apply_risk_management never writes. -/
structure TradeCore where
  side : Side
  price : ℚ
  shares : ℤ
  value : ℚ
  profit : Option ℚ
  date : ℕ
deriving DecidableEq, Repr

/-- Projection of a trade onto the fields apply_risk_management never
writes. -/
def RMTrade.core (t : RMTrade) : TradeCore :=
  ⟨t.side, t.price, t.shares, t.value, t.profit, t.date⟩

/-- The loop of apply_risk_management (risk_management.py lines 267-299),
with the risk manager peak and the current_position variable explicit.
Returns none when a should_enter_trade call raises. -/
def applyRMAux (cfg : RMConfig) : ℚ → Option RMTrade → List RMTrade → Option (List RMTrade)
  | _, _, [] => some []
  | peak, pos, t :: ts =>
    match t.side with
    | Side.buy =>
      match should_enter_trade cfg peak (t.availableCapital.getD 100000) t.price
          (t.price * (1 + cfg.takeProfitPct)) with
      | none => none
      | some (peak₁, d) =>
        match d with
        | Decision.enter ps slp rr _ =>
          let t₁ := { t with positionSize := some ps, stopLossPrice := some slp,
                             riskReward := some rr }
          (applyRMAux cfg peak₁ (some t₁) ts).map (t₁ :: ·)
        | _ => applyRMAux cfg peak₁ pos ts
    | Side.sell =>
      match pos with
      | none => applyRMAux cfg peak pos ts
      | some p =>
        let reason :=
          if check_stop_loss cfg p.price t.price then ExitReason.stop_loss
          else if check_take_profit cfg p.price t.price then ExitReason.take_profit
          else ExitReason.signal
        let t₁ := { t with exitReason := some reason }
        (applyRMAux cfg peak none ts).map (t₁ :: ·)

/-- apply_risk_management (risk_management.py lines 251-299): the peak
argument is the peak_value of the RiskManager instance handed in (its
constructor sets it to the initial capital). -/
def apply_risk_management (cfg : RMConfig) (peak : ℚ) (trades : List RMTrade) :
    Option (List RMTrade) :=
  applyRMAux cfg peak none trades

/-- Spec-side definition for the max-drawdown refinement: the running-peak
drawdown percentages across an equity value list, the peak being maintained
left to right starting from the given value. -/
def runningDrawdowns (peak : ℚ) : List ℚ → List ℚ
  | [] => []
  | v :: vs =>
    let p := max peak v
    (p - v) / p * 100 :: runningDrawdowns p vs

/-- Spec-side definition for the max-drawdown refinement: the maximum of the
running-peak drawdowns of the curve (the scan starts its peak at the first
value). -/
def specMaxDrawdown (vals : List ℚ) : ℚ :=
  (runningDrawdowns (vals.headD 0) vals).foldl max 0

/-- The peak_value of a RiskManager after a sequence of update_drawdown
calls, each call using the step of update_drawdown. -/
def peakAfter (cfg : RMConfig) (peak : ℚ) (calls : List ℚ) : ℚ :=
  calls.foldl (fun p v => (update_drawdown cfg p v).1) peak

/-- Relation between consecutive ledger entries used to state C7: whenever
the later entry is a SELL, the entry right before it is the matching BUY:
same share count, and the SELL profit is its value minus the BUY value. -/
def SellRel (a b : Trade) : Prop :=
  b.side = Side.sell →
    a.side = Side.buy ∧ a.shares = b.shares ∧ b.profit = some (b.value - a.value)

/-- Invariant of the backtest loop tying the ledger to the open position:
consecutive entries satisfy SellRel, the ledger does not start with a SELL,
and while a position is open the last ledger entry is the BUY that opened
it. -/
structure LedgerInv (s : BTState) : Prop where
  chain : List.Chain' SellRel s.trades
  headBuy : ∀ t ∈ s.trades.head?, t.side = Side.buy
  posBuy : 0 < s.position →
    ∃ l b, s.trades = l ++ [b] ∧ b.side = Side.buy ∧ b.shares = s.position

/-! Helper lemmas. -/

theorem pyTrunc_of_nonneg {q : ℚ} (h : 0 ≤ q) : pyTrunc q = ⌊q⌋ := by
  simp [pyTrunc, h]

theorem pyTrunc_nonpos {q : ℚ} (h : q ≤ 0) : pyTrunc q ≤ 0 := by
  unfold pyTrunc
  split
  · have hq : q = 0 := le_antisymm h (by assumption)
    simp [hq]
  · have h2 : (0:ℤ) ≤ ⌊-q⌋ := Int.floor_nonneg.2 (by linarith)
    omega

theorem pyTrunc_le_self {q : ℚ} (h : 0 ≤ q) : (pyTrunc q : ℚ) ≤ q := by
  rw [pyTrunc_of_nonneg h]
  exact Int.floor_le q

theorem tradePhase_equity {s t : BTState} {b : Bar} {ch : ℚ}
    (h : tradePhase s b ch = some t) : t.equity = s.equity := by
  unfold tradePhase at h
  split at h
  · split at h
    · exact absurd h (by simp)
    · dsimp only at h
      split at h
      · cases h; rfl
      · cases h; rfl
  · split at h
    · cases h; rfl
    · cases h; rfl

theorem processBar_change_none {s : BTState} {b : Bar} (h : b.change = none) :
    processBar s b = some s := by
  simp [processBar, h]

theorem processBar_elim {s s₂ : BTState} {b : Bar} {ch : ℚ}
    (hch : b.change = some ch) (h : processBar s b = some s₂) :
    ∃ t, tradePhase s b ch = some t ∧
      s₂.cash = t.cash ∧ s₂.position = t.position ∧ s₂.trades = t.trades ∧
      s₂.equity = s.equity ++ [⟨b.date, s₂.cash + (s₂.position : ℚ) * b.close⟩] := by
  unfold processBar at h
  rw [hch] at h
  obtain ⟨t, ht, rfl⟩ := Option.map_eq_some'.1 h
  exact ⟨t, ht, rfl, rfl, rfl, by simp [tradePhase_equity ht]⟩

theorem runLoop_append (s : BTState) (l₁ l₂ : List Bar) :
    runLoop s (l₁ ++ l₂) = (runLoop s l₁).bind fun s₁ => runLoop s₁ l₂ := by
  induction l₁ generalizing s with
  | nil => simp [runLoop]
  | cons b bs ih =>
    simp only [List.cons_append, runLoop]
    cases processBar s b with
    | none => simp
    | some s₁ => simp [ih]

theorem runLoop_equity_length {s s₂ : BTState} {bars : List Bar}
    (h : runLoop s bars = some s₂) :
    s₂.equity.length = s.equity.length + (bars.countP fun b => b.change.isSome) := by
  induction bars generalizing s with
  | nil =>
    simp only [runLoop] at h
    cases h
    simp
  | cons b bs ih =>
    simp only [runLoop] at h
    obtain ⟨s₁, h₁, h₂⟩ := Option.bind_eq_some.1 h
    have hlen := ih h₂
    cases hch : b.change with
    | none =>
      rw [processBar_change_none hch] at h₁
      cases h₁
      simp [hlen, List.countP_cons, hch]
    | some ch =>
      obtain ⟨t, _, _, _, _, heq⟩ := processBar_elim hch h₁
      rw [hlen, heq]
      simp [List.countP_cons, hch]
      ring

/-- C1 fails as stated: on a two-bar input whose first change marker is NaN,
the loop finishes but appends a single equity point, not one per input bar
(the first bar is skipped by the continue before the equity append). -/
theorem equity_curve_shorter_than_bars :
    ((runLoop (initState 1000) [⟨10, none, 0⟩, ⟨10, some 0, 1⟩]).map
      fun s => s.equity.length) = some 1 ∧
    ([(⟨10, none, 0⟩ : Bar), ⟨10, some 0, 1⟩]).length = 2 := by
  constructor
  · rfl
  · rfl

/-- C1 (amended): the equity curve produced by the loop of Backtester.run has
exactly one point per input bar whose change marker is defined (bars with a
NaN marker are skipped before the equity append), and the point appended at
such a bar has total value equal to the cash after processing that bar plus
the position after that bar times the closing price of that bar. -/
theorem run_equity_one_point_per_defined_bar (ic : ℚ) (bars : List Bar) :
    (∀ s₂, runLoop (initState ic) bars = some s₂ →
      s₂.equity.length = bars.countP fun b => b.change.isSome) ∧
    (∀ i (hi : i < bars.length) s₂, (bars.get ⟨i, hi⟩).change.isSome →
      runLoop (initState ic) (bars.take (i+1)) = some s₂ →
      s₂.equity.getLast? = some ⟨(bars.get ⟨i, hi⟩).date,
        s₂.cash + (s₂.position : ℚ) * (bars.get ⟨i, hi⟩).close⟩) := by
  constructor
  · intro s₂ h
    simpa [initState] using runLoop_equity_length h
  · intro i hi s₂ hdef h
    obtain ⟨ch, hch⟩ := Option.isSome_iff_exists.1 hdef
    rw [List.take_succ, List.getElem?_eq_getElem hi] at h
    simp only [Option.toList_some] at h
    rw [runLoop_append] at h
    obtain ⟨mid, hmid, hstep⟩ := Option.bind_eq_some.1 h
    simp only [runLoop] at hstep
    obtain ⟨fin, hfin, hfin2⟩ := Option.bind_eq_some.1 hstep
    cases hfin2
    rw [show bars[i] = bars.get ⟨i, hi⟩ from rfl] at hfin
    obtain ⟨t, _, _, _, _, heq⟩ := processBar_elim hch hfin
    rw [heq, List.getLast?_concat]

/-- Witness for the amended C1 at a concrete input. -/
theorem run_equity_one_point_per_defined_bar_check :
    (⟨1000, 0, [], [⟨1, 1000⟩]⟩ : BTState).equity.length =
      ([(⟨10, none, 0⟩ : Bar), ⟨10, some 0, 1⟩].countP fun b => b.change.isSome) :=
  (run_equity_one_point_per_defined_bar 1000 [⟨10, none, 0⟩, ⟨10, some 0, 1⟩]).1
    ⟨1000, 0, [], [⟨1, 1000⟩]⟩ (by simp [runLoop, processBar, tradePhase, initState])

theorem tradePhase_nonneg {s t : BTState} {b : Bar} {ch : ℚ}
    (hb : 0 < b.close) (h0 : 0 ≤ s.cash) (hp : 0 ≤ s.position)
    (h : tradePhase s b ch = some t) : 0 ≤ t.cash ∧ 0 ≤ t.position := by
  unfold tradePhase at h
  split at h
  · split at h
    · exact absurd h (by simp)
    · dsimp only at h
      split at h
      case isTrue hsh =>
        cases h
        constructor
        · have hq : 0 ≤ s.cash / b.close := div_nonneg h0 hb.le
          have h1 : (pyTrunc (s.cash / b.close) : ℚ) ≤ s.cash / b.close := pyTrunc_le_self hq
          have h2 : (pyTrunc (s.cash / b.close) : ℚ) * b.close ≤ s.cash / b.close * b.close :=
            mul_le_mul_of_nonneg_right h1 hb.le
          rw [div_mul_cancel₀ _ (ne_of_gt hb)] at h2
          simpa using by linarith
        · exact_mod_cast hsh.le
      case isFalse =>
        cases h
        exact ⟨h0, hp⟩
  · split at h
    · dsimp only at h
      cases h
      constructor
      · have hval : 0 ≤ (s.position : ℚ) * b.close :=
          mul_nonneg (by exact_mod_cast hp) hb.le
        simpa using by linarith
      · exact le_refl 0
    · cases h
      exact ⟨h0, hp⟩

theorem processBar_nonneg {s t : BTState} {b : Bar}
    (hb : 0 < b.close) (h0 : 0 ≤ s.cash) (hp : 0 ≤ s.position)
    (h : processBar s b = some t) : 0 ≤ t.cash ∧ 0 ≤ t.position := by
  cases hch : b.change with
  | none =>
    rw [processBar_change_none hch] at h
    cases h
    exact ⟨h0, hp⟩
  | some ch =>
    obtain ⟨u, hu, hcash, hpos, _, _⟩ := processBar_elim hch h
    rw [hcash, hpos]
    exact tradePhase_nonneg hb h0 hp hu

/-- C8: through the loop of Backtester.run over bars with positive closing
prices, cash and position stay non-negative from any non-negative start, in
particular after every BUY: the BUY debits floor(cash / close) × close,
which never exceeds the cash available at the time of entry. -/
theorem run_cash_position_nonneg (bars : List Bar) (s s₂ : BTState)
    (hc : ∀ b ∈ bars, 0 < b.close) (h0 : 0 ≤ s.cash) (hp : 0 ≤ s.position)
    (h : runLoop s bars = some s₂) : 0 ≤ s₂.cash ∧ 0 ≤ s₂.position := by
  induction bars generalizing s with
  | nil =>
    simp only [runLoop] at h
    cases h
    exact ⟨h0, hp⟩
  | cons b bs ih =>
    simp only [runLoop] at h
    obtain ⟨s₁, h₁, h₂⟩ := Option.bind_eq_some.1 h
    obtain ⟨hcash, hpos⟩ := processBar_nonneg (hc b (List.mem_cons_self b bs)) h0 hp h₁
    exact ih _ (fun x hx => hc x (List.mem_cons_of_mem b hx)) hcash hpos h₂

/-- Witness for C8 on a run with one BUY and one SELL. -/
theorem run_cash_position_nonneg_check :
    0 ≤ (⟨1200, 0,
      [⟨Side.buy, 10, 100, 1000, none, 1⟩, ⟨Side.sell, 12, 100, 1200, some 200, 2⟩],
      [⟨1, 1000⟩, ⟨2, 1200⟩]⟩ : BTState).cash ∧
    0 ≤ (⟨1200, 0,
      [⟨Side.buy, 10, 100, 1000, none, 1⟩, ⟨Side.sell, 12, 100, 1200, some 200, 2⟩],
      [⟨1, 1000⟩, ⟨2, 1200⟩]⟩ : BTState).position :=
  run_cash_position_nonneg [⟨10, none, 0⟩, ⟨10, some 2, 1⟩, ⟨12, some (-2), 2⟩]
    (initState 1000) _
    (by intro b hb; fin_cases hb <;> norm_num)
    (by norm_num [initState]) (by norm_num [initState])
    (by norm_num [runLoop, processBar, tradePhase, initState, pyTrunc])

theorem chain_append_singleton {xs : List Trade} {y : Trade}
    (hc : List.Chain' SellRel xs) (hrel : ∀ x ∈ xs.getLast?, SellRel x y) :
    List.Chain' SellRel (xs ++ [y]) :=
  hc.append (List.chain'_singleton _) fun x hx z hz => by
    simp only [List.head?_cons, Option.mem_def, Option.some.injEq] at hz
    subst hz
    exact hrel x hx

theorem headBuy_append_singleton {xs : List Trade} {y : Trade}
    (hx : ∀ t ∈ xs.head?, t.side = Side.buy) (hy : xs = [] → y.side = Side.buy) :
    ∀ t ∈ (xs ++ [y]).head?, t.side = Side.buy := by
  cases xs with
  | nil =>
    intro t ht
    simp only [List.nil_append, List.head?_cons, Option.mem_def, Option.some.injEq] at ht
    subst ht
    exact hy rfl
  | cons a as =>
    intro t ht
    simp only [List.cons_append, List.head?_cons, Option.mem_def, Option.some.injEq] at ht
    subst ht
    exact hx a rfl

theorem tradePhase_inv {s t : BTState} {b : Bar} {ch : ℚ}
    (inv : LedgerInv s) (h : tradePhase s b ch = some t) : LedgerInv t := by
  unfold tradePhase at h
  split at h
  · split at h
    · exact absurd h (by simp)
    · dsimp only at h
      split at h
      · cases h
        refine ⟨?_, ?_, ?_⟩
        · exact chain_append_singleton inv.chain fun x _ hside => absurd hside (by simp)
        · exact headBuy_append_singleton inv.headBuy fun _ => rfl
        · intro _
          exact ⟨s.trades, _, rfl, rfl, rfl⟩
      · cases h
        exact inv
  · split at h
    case isTrue hsell =>
      obtain ⟨l, bb, htr, hbuy, hsh⟩ := inv.posBuy hsell.2
      have hprev : (s.trades.getLast?).elim 0 Trade.value = bb.value := by
        rw [htr, List.getLast?_concat]
        rfl
      dsimp only at h
      cases h
      refine ⟨?_, ?_, ?_⟩
      · refine chain_append_singleton inv.chain fun x hx => ?_
        rw [htr, List.getLast?_concat, Option.mem_def, Option.some.injEq] at hx
        subst hx
        intro _
        refine ⟨hbuy, hsh, ?_⟩
        dsimp only
        rw [hprev]
      · refine headBuy_append_singleton inv.headBuy fun he => ?_
        rw [he] at htr
        exact absurd htr.symm (by simp)
      · intro hp
        exact absurd hp (by simp)
    · cases h
      exact inv

theorem processBar_inv {s t : BTState} {b : Bar}
    (inv : LedgerInv s) (h : processBar s b = some t) : LedgerInv t := by
  cases hch : b.change with
  | none =>
    rw [processBar_change_none hch] at h
    cases h
    exact inv
  | some ch =>
    obtain ⟨u, hu, _, hpos, htr, _⟩ := processBar_elim hch h
    have hi := tradePhase_inv inv hu
    refine ⟨?_, ?_, ?_⟩
    · rw [htr]; exact hi.chain
    · rw [htr]; exact hi.headBuy
    · rw [htr, hpos]; exact hi.posBuy

theorem runLoop_inv {s s₂ : BTState} {bars : List Bar}
    (inv : LedgerInv s) (h : runLoop s bars = some s₂) : LedgerInv s₂ := by
  induction bars generalizing s with
  | nil =>
    simp only [runLoop] at h
    cases h
    exact inv
  | cons b bs ih =>
    simp only [runLoop] at h
    obtain ⟨s₁, h₁, h₂⟩ := Option.bind_eq_some.1 h
    exact ih (processBar_inv inv h₁) h₂

theorem initState_ledgerInv (ic : ℚ) : LedgerInv (initState ic) := by
  refine ⟨List.chain'_nil, ?_, ?_⟩
  · intro t ht
    simp [initState] at ht
  · intro hp
    exact absurd hp (by norm_num [initState])

/-- C7: in any completed run of the backtest loop from the reset state, every
SELL trade in the ledger is immediately preceded by the BUY that opened the
position it closes (same share count), and its recorded profit is its exit
value minus the value recorded on that matching entry BUY. -/
theorem run_sell_profit_matches_entry (ic : ℚ) (bars : List Bar) (s₂ : BTState)
    (h : runLoop (initState ic) bars = some s₂)
    (i : ℕ) (hi : i < s₂.trades.length)
    (hsell : (s₂.trades.get ⟨i, hi⟩).side = Side.sell) :
    ∃ (j : ℕ) (hj : j < s₂.trades.length), i = j + 1 ∧
      (s₂.trades.get ⟨j, hj⟩).side = Side.buy ∧
      (s₂.trades.get ⟨j, hj⟩).shares = (s₂.trades.get ⟨i, hi⟩).shares ∧
      (s₂.trades.get ⟨i, hi⟩).profit =
        some ((s₂.trades.get ⟨i, hi⟩).value - (s₂.trades.get ⟨j, hj⟩).value) := by
  have inv := runLoop_inv (initState_ledgerInv ic) h
  cases i with
  | zero =>
    exfalso
    have hhead : s₂.trades.get ⟨0, hi⟩ ∈ s₂.trades.head? := by
      rw [List.head?_eq_getElem?]
      exact List.getElem?_eq_getElem hi
    have := inv.headBuy _ hhead
    rw [hsell] at this
    exact absurd this (by simp)
  | succ j =>
    have hrel := List.chain'_iff_get.1 inv.chain j (by omega)
    obtain ⟨h1, h2, h3⟩ := hrel hsell
    exact ⟨j, by omega, rfl, h1, h2, h3⟩

/-- Witness for C7 on a run with one BUY and one SELL. -/
theorem run_sell_profit_matches_entry_check :
    ∃ (j : ℕ) (hj : j < ([⟨Side.buy, 10, 100, 1000, none, 1⟩,
        ⟨Side.sell, 12, 100, 1200, some 200, 2⟩] : List Trade).length),
      1 = j + 1 ∧
      (([⟨Side.buy, 10, 100, 1000, none, 1⟩,
        ⟨Side.sell, 12, 100, 1200, some 200, 2⟩] : List Trade).get ⟨j, hj⟩).side = Side.buy ∧
      (([⟨Side.buy, 10, 100, 1000, none, 1⟩,
        ⟨Side.sell, 12, 100, 1200, some 200, 2⟩] : List Trade).get ⟨j, hj⟩).shares = 100 ∧
      (some 200 : Option ℚ) =
        some (1200 - (([⟨Side.buy, 10, 100, 1000, none, 1⟩,
          ⟨Side.sell, 12, 100, 1200, some 200, 2⟩] : List Trade).get ⟨j, hj⟩).value) := by
  obtain ⟨j, hj, h1, h2, h3, h4⟩ :=
    run_sell_profit_matches_entry 1000
      [⟨10, none, 0⟩, ⟨10, some 2, 1⟩, ⟨12, some (-2), 2⟩]
      ⟨1200, 0,
        [⟨Side.buy, 10, 100, 1000, none, 1⟩, ⟨Side.sell, 12, 100, 1200, some 200, 2⟩],
        [⟨1, 1000⟩, ⟨2, 1200⟩]⟩
      (by norm_num [runLoop, processBar, tradePhase, initState, pyTrunc])
      1 (by norm_num) rfl
  exact ⟨j, hj, h1, h2, h3, h4⟩

@[simp] theorem decide_buy_eq_sell : decide (Side.buy = Side.sell) = false := rfl

@[simp] theorem decide_sell_eq_sell : decide (Side.sell = Side.sell) = true := rfl

/-- C3: the win-rate guard in the source checks the whole ledger, not the
SELL sublist, so a nonempty ledger with no SELL trades divides by zero
instead of returning 0: a ledger holding a single BUY makes the metric
raise, and a whole run producing such a ledger returns no result; the
empty ledger returns 0 and a ledger with SELL trades follows the formula. -/
theorem winRate_buy_only_ledger_raises :
    winRateMetric [⟨Side.buy, 10, 100, 1000, none, 1⟩] = none ∧
    winRateMetric [] = some 0 ∧
    winRateMetric [⟨Side.buy, 10, 100, 1000, none, 1⟩,
      ⟨Side.sell, 12, 100, 1200, some 200, 2⟩] = some 100 ∧
    runBacktest 1000 [⟨10, none, 0⟩, ⟨10, some 2, 1⟩] = none := by
  refine ⟨?_, ?_, ?_, ?_⟩
  · norm_num [winRateMetric]
  · norm_num [winRateMetric]
  · norm_num [winRateMetric, List.filter]
    exact List.cons_ne_nil _ _
  · norm_num [runBacktest, runLoop, processBar, tradePhase, initState, pyTrunc,
      winRateMetric, maxDrawdownMetric]
    exact fun hcon => nomatch hcon

/-- C10: for a one-bar series the change marker of the sole bar is NaN (the
pandas diff of a one-element signal column), so the bar is skipped before
its equity point is appended, the equity curve comes out empty, and run
fails to return a result because the max-drawdown scan reads the first
element of the empty curve. -/
theorem single_bar_run_fails (c : ℚ) (sig : ℤ) (ic : ℚ) :
    diffMarkers [sig] = [none] ∧
    (runLoop (initState ic) (barsOf [c] [sig])).map BTState.equity = some [] ∧
    runBacktest ic (barsOf [c] [sig]) = none := by
  refine ⟨rfl, ?_, ?_⟩
  · simp [barsOf, diffMarkers, diffsFrom, runLoop, processBar, initState]
  · simp [runBacktest, barsOf, diffMarkers, diffsFrom, runLoop, processBar, initState,
      winRateMetric, maxDrawdownMetric]

theorem if_gt_eq_max (a b : ℚ) : (if b > a then b else a) = max a b := by
  split
  · exact (max_eq_right (le_of_lt (by assumption))).symm
  · exact (max_eq_left (le_of_not_lt (by assumption))).symm

theorem ddStep_eq (p m v : ℚ) :
    ddStep (p, m) v = (max p v, max m ((max p v - v) / max p v * 100)) := by
  unfold ddStep
  dsimp only
  rw [if_gt_eq_max, if_gt_eq_max]

theorem foldl_ddStep_eq (l : List ℚ) :
    ∀ p m : ℚ, (l.foldl ddStep (p, m)).2 = (runningDrawdowns p l).foldl max m := by
  induction l with
  | nil => intro p m; rfl
  | cons v vs ih =>
    intro p m
    rw [List.foldl_cons, ddStep_eq, runningDrawdowns]
    exact ih (max p v) (max m _)

theorem le_foldl_max (l : List ℚ) : ∀ m : ℚ, m ≤ l.foldl max m := by
  induction l with
  | nil => intro m; exact le_refl m
  | cons a as ih =>
    intro m
    exact le_trans (le_max_left m a) (ih (max m a))

/-- C6: on a nonempty equity curve of positive values (positivity is what
makes Python's division by the running peak defined), the max-drawdown scan
of Backtester.run returns a value that is non-negative and equal to the
maximum of (peak − value)/peak over the running peak maintained left to
right, expressed as a percentage; on the synthetic curve [100, 120, 90, 110]
that maximum is 25. -/
theorem maxDrawdown_spec (vals : List ℚ) (h1 : vals ≠ [])
    (h2 : ∀ v ∈ vals, 0 < v) :
    (∃ m, maxDrawdownMetric vals = some m ∧ 0 ≤ m ∧ m = specMaxDrawdown vals) ∧
    maxDrawdownMetric [100, 120, 90, 110] = some 25 := by
  constructor
  · cases vals with
    | nil => exact absurd rfl h1
    | cons v0 rest =>
      refine ⟨((v0 :: rest).foldl ddStep (v0, 0)).2, rfl, ?_, ?_⟩
      · rw [foldl_ddStep_eq]
        exact le_foldl_max _ 0
      · rw [foldl_ddStep_eq]
        rfl
  · norm_num [maxDrawdownMetric, ddStep]

/-- Witness for C6 on the synthetic curve of the spec. -/
theorem maxDrawdown_spec_check :
    (∃ m, maxDrawdownMetric [100, 120, 90, 110] = some m ∧ 0 ≤ m ∧
      m = specMaxDrawdown [100, 120, 90, 110]) ∧
    maxDrawdownMetric [100, 120, 90, 110] = some 25 :=
  maxDrawdown_spec [100, 120, 90, 110] (by simp)
    (by intro v hv; fin_cases hv <;> norm_num)

theorem update_drawdown_fst (cfg : RMConfig) (peak cv : ℚ) :
    (update_drawdown cfg peak cv).1 = max peak cv := by
  unfold update_drawdown
  dsimp only
  rw [if_gt_eq_max]
  split <;> rfl

theorem update_drawdown_snd (cfg : RMConfig) (peak cv : ℚ) {i : DrawdownInfo}
    (h : (update_drawdown cfg peak cv).2 = some i) :
    i.currentDrawdown = (max peak cv - cv) / max peak cv ∧
    (i.haltTrading = true ↔ cfg.maxDrawdownPct ≤ i.currentDrawdown) := by
  unfold update_drawdown at h
  dsimp only at h
  rw [if_gt_eq_max] at h
  split at h
  · exact absurd h (by simp)
  · cases h
    exact ⟨rfl, decide_eq_true_iff⟩

theorem le_peakAfter (cfg : RMConfig) (peak : ℚ) (calls : List ℚ) :
    peak ≤ peakAfter cfg peak calls := by
  induction calls generalizing peak with
  | nil => exact le_refl peak
  | cons c cs ih =>
    simp only [peakAfter, List.foldl_cons]
    refine le_trans ?_ (ih ((update_drawdown cfg peak c).1))
    rw [update_drawdown_fst]
    exact le_max_left peak c

/-- C9: the peak of a RiskManager is a monotone ratchet: one update raises it
to the maximum of the old peak and the current value and never lowers it,
any sequence of updates leaves it at least where it started, and every
completed call reports drawdown = (peak − value)/peak over the updated peak
with the halt flag set exactly when the drawdown reaches the configured
limit.  should_enter_trade updates the peak through this same step. -/
theorem update_drawdown_ratchet (cfg : RMConfig) (peak cv : ℚ) (calls : List ℚ)
    (i : DrawdownInfo) (h : (update_drawdown cfg peak cv).2 = some i) :
    (update_drawdown cfg peak cv).1 = max peak cv ∧
    peak ≤ peakAfter cfg peak calls ∧
    i.currentDrawdown = (max peak cv - cv) / max peak cv ∧
    (i.haltTrading = true ↔ cfg.maxDrawdownPct ≤ i.currentDrawdown) := by
  obtain ⟨h1, h2⟩ := update_drawdown_snd cfg peak cv h
  exact ⟨update_drawdown_fst cfg peak cv, le_peakAfter cfg peak calls, h1, h2⟩

/-- Witness for C9: peak 100, call at 80, drawdown 20 percent halts at the
default 20 percent limit. -/
theorem update_drawdown_ratchet_check :
    (update_drawdown defaultRM 100 80).1 = max 100 80 ∧
    (100:ℚ) ≤ peakAfter defaultRM 100 [80, 150] ∧
    (⟨1/5, true⟩ : DrawdownInfo).currentDrawdown = (max 100 80 - 80) / max 100 80 ∧
    ((⟨1/5, true⟩ : DrawdownInfo).haltTrading = true ↔
      defaultRM.maxDrawdownPct ≤ (⟨1/5, true⟩ : DrawdownInfo).currentDrawdown) :=
  update_drawdown_ratchet defaultRM 100 80 [80, 150] ⟨1/5, true⟩
    (by norm_num [update_drawdown, defaultRM, decide_eq_true_eq])

/-- C4 fails as stated: with the default configuration (stopLossPct 0.05,
maxDrawdownPct 0.20, peak 100000) a call with capital 1000 is rejected with
the maximum-drawdown reason, not the poor-risk/reward reason, because the
drawdown check runs first; so the rejection reason is not independent of
capital and drawdown. -/
theorem shouldEnter_cex :
    should_enter_trade defaultRM 100000 1000 100 105 =
      some (100000, Decision.haltedMaxDrawdown (99/100)) := by
  norm_num [should_enter_trade, update_drawdown, defaultRM, decide_eq_true_eq]

/-- C4 (amended): with stopLossPct = 0.05, entry 100 and target 105, the
stop-loss price is 95 and, whenever the drawdown check does not halt
trading, the entry is rejected with the poor-risk/reward reason carrying
ratio (105−100)/(100−95) = 1.0, for every capital and drawdown state. -/
theorem shouldEnter_entry100_target105 (cfg : RMConfig) (peak capital : ℚ)
    (i : DrawdownInfo) (hslp : cfg.stopLossPct = 1/20)
    (h : (update_drawdown cfg peak capital).2 = some i)
    (hhalt : i.haltTrading = false) :
    stopLossPriceOf cfg 100 = 95 ∧
    should_enter_trade cfg peak capital 100 105 =
      some ((update_drawdown cfg peak capital).1, Decision.poorRiskReward 1) := by
  have hsl : stopLossPriceOf cfg 100 = 95 := by
    rw [stopLossPriceOf, hslp]
    norm_num
  refine ⟨hsl, ?_⟩
  simp only [should_enter_trade]
  rw [h]
  simp only [hhalt, Bool.false_eq_true, if_false]
  rw [hsl]
  norm_num [ calculate_risk_reward_ratio]

/-- Witness for the amended C4 at capital 100000 with zero drawdown. -/
theorem shouldEnter_entry100_target105_check :
    stopLossPriceOf defaultRM 100 = 95 ∧
    should_enter_trade defaultRM 100000 100000 100 105 =
      some ((update_drawdown defaultRM 100000 100000).1, Decision.poorRiskReward 1) :=
  shouldEnter_entry100_target105 defaultRM 100000 100000 ⟨0, false⟩
    (by norm_num [defaultRM])
    (by norm_num [update_drawdown, defaultRM, decide_eq_false_iff_not])
    rfl

/-- C2 fails as stated: a zero price is a degenerate input on which
calculate_position_size does not return 0 shares but raises
ZeroDivisionError (modelled as none). -/
theorem calculate_position_size_cex :
    calculate_position_size defaultRM 100000 0 none = none := by
  simp [ calculate_position_size]

/-- C2 (amended): for every capital, nonzero price, max-fraction and optional
volatility, calculate_position_size returns a non-negative integer share
count; degenerate inputs with capital ≤ 0 (at positive price) or negative
price (at non-negative capital) yield 0 shares when the configured
max-fraction is non-negative; a zero price raises ZeroDivisionError. -/
theorem calculate_position_size_amended (cfg : RMConfig) (capital price : ℚ)
    (vol : Option ℚ) (hp : price ≠ 0) :
    ∃ n : ℤ, calculate_position_size cfg capital price vol = some n ∧ 0 ≤ n ∧
      (0 ≤ cfg.maxPositionSize →
        ((capital ≤ 0 ∧ 0 < price) ∨ (0 ≤ capital ∧ price < 0)) → n = 0) := by
  unfold calculate_position_size
  rw [if_neg hp]
  dsimp only
  refine ⟨_, rfl, le_max_left 0 _, ?_⟩
  intro hm hcase
  have hbase : pyTrunc (capital * cfg.maxPositionSize / price) ≤ 0 := by
    apply pyTrunc_nonpos
    rcases hcase with ⟨hc, hp2⟩ | ⟨hc, hp2⟩
    · exact div_nonpos_iff.2 (Or.inr ⟨mul_nonpos_iff.2 (Or.inr ⟨hc, hm⟩), hp2.le⟩)
    · exact div_nonpos_iff.2 (Or.inl ⟨mul_nonneg hc hm, hp2.le⟩)
  cases vol with
  | none => exact max_eq_left hbase
  | some v =>
    by_cases hv : 0 < v
    · simp only [hv, if_true]
      refine max_eq_left (pyTrunc_nonpos ?_)
      refine mul_nonpos_iff.2 (Or.inr ⟨?_, ?_⟩)
      · exact_mod_cast hbase
      · exact le_min (by norm_num) (le_of_lt (by positivity))
    · simp only [hv, if_false]
      exact max_eq_left hbase

/-- Witness for the amended C2 at capital 100000, price 100, default
max-fraction, no volatility. -/
theorem calculate_position_size_amended_check :
    ∃ n : ℤ, calculate_position_size defaultRM 100000 100 none = some n ∧ 0 ≤ n ∧
      (0 ≤ defaultRM.maxPositionSize →
        (((100000:ℚ) ≤ 0 ∧ (0:ℚ) < 100) ∨ ((0:ℚ) ≤ 100000 ∧ (100:ℚ) < 0)) → n = 0) :=
  calculate_position_size_amended defaultRM 100000 100 none (by norm_num)

theorem applyRMAux_core_sublist (cfg : RMConfig) (trades : List RMTrade) :
    ∀ (peak : ℚ) (pos : Option RMTrade) (out : List RMTrade),
      applyRMAux cfg peak pos trades = some out →
      List.Sublist (out.map RMTrade.core) (trades.map RMTrade.core) := by
  induction trades with
  | nil =>
    intro peak pos out h
    simp only [applyRMAux] at h
    cases h
    simp
  | cons t ts ih =>
    intro peak pos out h
    obtain ⟨sd, pr, sh, vl, pf, dt, ac, ps0, sl0, rr0, er0⟩ := t
    simp only [applyRMAux] at h
    cases sd with
    | buy =>
      dsimp only at h
      cases hse : should_enter_trade cfg peak (ac.getD 100000) pr
          (pr * (1 + cfg.takeProfitPct)) with
      | none =>
        rw [hse] at h
        exact absurd h (by simp)
      | some pd =>
        rw [hse] at h
        obtain ⟨peak₁, d⟩ := pd
        cases d with
        | enter ps slp rr ml =>
          dsimp only at h
          obtain ⟨rest, hrest, hout⟩ := Option.map_eq_some'.1 h
          subst hout
          simp only [List.map_cons]
          exact List.Sublist.cons₂ _ (ih peak₁ _ rest hrest)
        | haltedMaxDrawdown dd =>
          dsimp only at h
          exact List.Sublist.cons _ (ih peak₁ pos out h)
        | poorRiskReward rr =>
          dsimp only at h
          exact List.Sublist.cons _ (ih peak₁ pos out h)
        | insufficientCapital req =>
          dsimp only at h
          exact List.Sublist.cons _ (ih peak₁ pos out h)
    | sell =>
      dsimp only at h
      cases pos with
      | none =>
        exact List.Sublist.cons _ (ih peak none out h)
      | some p =>
        dsimp only at h
        obtain ⟨rest, hrest, hout⟩ := Option.map_eq_some'.1 h
        subst hout
        simp only [List.map_cons]
        exact List.Sublist.cons₂ _ (ih peak none rest hrest)

/-- C5: whenever apply_risk_management completes, its output is an ordered
sublist of the input ledger in which every kept trade has its side, price,
shares, value, profit and date unchanged (only the annotation fields
position_size, stop_loss_price, risk_reward and exit_reason are written):
the pass annotates and filters the existing ledger without re-simulating
any cash or share quantity. -/
theorem apply_risk_management_annotates_sublist (cfg : RMConfig) (peak : ℚ)
    (trades out : List RMTrade)
    (h : apply_risk_management cfg peak trades = some out) :
    List.Sublist (out.map RMTrade.core) (trades.map RMTrade.core) :=
  applyRMAux_core_sublist cfg trades peak none out h

/-- Witness for C5 on a BUY that passes the gate and a SELL closed by
signal. -/
theorem apply_risk_management_annotates_sublist_check :
    List.Sublist
      (([⟨Side.buy, 100, 200, 20000, none, 0, none, some 200, some 95, some 2, none⟩,
         ⟨Side.sell, 101, 200, 20200, some 200, 1, none, none, none, none,
           some ExitReason.signal⟩] : List RMTrade).map RMTrade.core)
      (([⟨Side.buy, 100, 200, 20000, none, 0, none, none, none, none, none⟩,
         ⟨Side.sell, 101, 200, 20200, some 200, 1, none, none, none, none,
           none⟩] : List RMTrade).map RMTrade.core) :=
  apply_risk_management_annotates_sublist defaultRM 100000
    [⟨Side.buy, 100, 200, 20000, none, 0, none, none, none, none, none⟩,
     ⟨Side.sell, 101, 200, 20200, some 200, 1, none, none, none, none, none⟩]
    [⟨Side.buy, 100, 200, 20000, none, 0, none, some 200, some 95, some 2, none⟩,
     ⟨Side.sell, 101, 200, 20200, some 200, 1, none, none, none, none,
       some ExitReason.signal⟩]
    (by norm_num [apply_risk_management, applyRMAux, should_enter_trade,
      update_drawdown, stopLossPriceOf, calculate_position_size, pyTrunc,
      check_stop_loss, check_take_profit, defaultRM, decide_eq_true_eq,
      calculate_risk_reward_ratio])

end AlgoTrade
